import Mathlib

/-!
Verification of the incremental synchronization engine of this repository:
the paginated order extractor (`core/order_export.py`) and the spreadsheet
reconciler/uploader (`core/spreadsheet_uploader.py`), shallowly embedded in
Lean 4.  Each Python function relevant to the verified properties is
translated into an executable Lean definition; machine-level concerns
(logging, network I/O, sleeping) are dropped, while control flow, data flow
and arithmetic are kept exactly as in the source.
-/

namespace SpreadsheetUploader

/-- A spreadsheet row: an ordered list of string cells. -/
abbrev Row := List String

/-- Insertion-ordered dictionary update, modelling Python `dict` assignment
`m[k] = v`: an existing binding keeps its position and gets the new value,
a fresh key is appended at the end. -/
def dictUpsert {α : Type} : List (String × α) → String → α → List (String × α)
  | [], k, v => [(k, v)]
  | (k0, v0) :: rest, k, v =>
    if k0 = k then (k0, v) :: rest else (k0, v0) :: dictUpsert rest k v

/-- Dictionary lookup, modelling Python `m.get(k)` / `k in m`. -/
def dictFind {α : Type} : List (String × α) → String → Option α
  | [], _ => none
  | (k0, v0) :: rest, k => if k0 = k then some v0 else dictFind rest k

/-- Last element of a list as an option. -/
def lastOpt {α : Type} : List α → Option α
  | [] => none
  | [a] => some a
  | _ :: b :: rest => lastOpt (b :: rest)

/-- Python `str.strip()` with no argument: remove whitespace from both
ends (modelled over the character list). -/
def pyStrip (s : String) : String :=
  String.mk (((s.toList.dropWhile Char.isWhitespace).reverse.dropWhile
    Char.isWhitespace).reverse)

/-- Models `header.strip().lstrip(BOM)` from `find_duplicate_rows`
(line 1287): trim surrounding whitespace, then drop leading U+FEFF
byte-order marks. -/
def cleanHeader (s : String) : String :=
  String.mk ((pyStrip s).toList.dropWhile (fun c => c = '﻿'))

/-- Models the key-column search of `find_duplicate_rows` (lines 1279-1303):
first the index of the header whose cleaned text is `Name`; failing that,
the index of the header exactly equal to `Id`; failing both, no column. -/
def findIdColumn (headers : List String) : Option Nat :=
  match headers.findIdx? (fun h => cleanHeader h == "Name") with
  | some i => some i
  | none => headers.findIdx? (fun h => h == "Id")

/-- Models `len(row) > id_column_index and row[id_column_index]`:
the key cell of a row, present only when the row is long enough and the
cell is non-empty (Python truthiness of a string). -/
def rowKey (row : Row) (idx : Nat) : Option String :=
  match row.get? idx with
  | some v => if v = "" then none else some v
  | none => none

/-- Loop body of lines 1307-1309: walk the existing data rows (0-based
counter `i`, stored row number `i + 2` to account for the header row),
entering each keyed row into the lookup; a later duplicate key overwrites
an earlier one, exactly as Python `existing_ids[key] = i + 2` does. -/
def buildExistingIdsAux (idx : Nat) : List Row → Nat → List (String × Nat) → List (String × Nat)
  | [], _, m => m
  | row :: rest, i, m =>
    match rowKey row idx with
    | some k => buildExistingIdsAux idx rest (i + 1) (dictUpsert m k (i + 2))
    | none => buildExistingIdsAux idx rest (i + 1) m

/-- The `existing_ids` lookup of `find_duplicate_rows`. -/
def buildExistingIds (rows : List Row) (idx : Nat) : List (String × Nat) :=
  buildExistingIdsAux idx rows 0 []

/-- One entry of the `duplicates` dict: the existing row number to update
and the new row that will overwrite it. -/
structure DupEntry where
  existing_row : Nat
  new_data : Row
deriving Repr, DecidableEq

/-- Loop of lines 1312-1327: partition the new rows into the `duplicates`
dict (key already present in `existing_ids`) and the `new_rows_filtered`
append list (fresh key, or no usable key cell), preserving input order. -/
def classifyNewRowsAux (idx : Nat) (ids : List (String × Nat)) :
    List Row → List (String × DupEntry) → List Row → List (String × DupEntry) × List Row
  | [], dups, filtered => (dups, filtered)
  | row :: rest, dups, filtered =>
    match rowKey row idx with
    | some k =>
      match dictFind ids k with
      | some r => classifyNewRowsAux idx ids rest (dictUpsert dups k ⟨r, row⟩) filtered
      | none => classifyNewRowsAux idx ids rest dups (filtered ++ [row])
    | none => classifyNewRowsAux idx ids rest dups (filtered ++ [row])

/-- Result of `find_duplicate_rows`.  The Python function returns a dict
that omits the `filtered_new_rows` key on its two early-return paths, so
that component is optional here. -/
structure ReconcileResult where
  duplicates : List (String × DupEntry)
  next_empty_row : Nat
  filtered_new_rows : Option (List Row)
deriving Repr, DecidableEq

/-- `SpreadsheetUploader.find_duplicate_rows` (lines 1267-1340), translated
clause by clause: the small-table early return, the key-column search, the
`existing_ids` lookup built from the data rows, and the update/append
partition of the new data rows. -/
def find_duplicate_rows (existing_data new_data : List Row) : ReconcileResult :=
  if existing_data.length < 2 then ⟨[], 2, none⟩
  else
    match findIdColumn existing_data.headI with
    | none => ⟨[], existing_data.length + 1, none⟩
    | some idx =>
      let ids := buildExistingIds (existing_data.drop 1) idx
      let p := classifyNewRowsAux idx ids (new_data.drop 1) [] []
      ⟨p.1, existing_data.length + 1, some p.2⟩

/-- Row numbers (1-based, header included, hence `+ 2`) of the existing data
rows whose key cell equals `k` — the candidates a matching new row could be
routed to. -/
def keyRowNumbers (rows : List Row) (idx : Nat) (k : String) : List Nat :=
  (rows.enum.filter (fun p => rowKey p.2 idx = some k)).map (fun p => p.1 + 2)

/-- `keyRowNumbers` generalized to enumeration starting at `i`. -/
def keyRowNumbersFrom (rows : List Row) (idx : Nat) (k : String) (i : Nat) : List Nat :=
  ((List.enumFrom i rows).filter (fun p => rowKey p.2 idx = some k)).map (fun p => p.1 + 2)

/-- Whether `find_duplicate_rows` routes a new row to the append list:
its key cell is absent/empty, or its key is not among the existing ids. -/
def keepForAppend (idx : Nat) (ids : List (String × Nat)) (row : Row) : Bool :=
  match rowKey row idx with
  | some k2 => (dictFind ids k2).isNone
  | none => true

/-- Key/value consistency of the accumulated `duplicates` dict: each entry
stores a new row whose key cell is the entry's key, and an existing row
number obtained from the `existing_ids` lookup at that key. -/
def DupsConsistent (idx : Nat) (ids : List (String × Nat))
    (dups : List (String × DupEntry)) : Prop :=
  ∀ k2 e2, dictFind dups k2 = some e2 →
    rowKey e2.new_data idx = some k2 ∧ dictFind ids k2 = some e2.existing_row

/-- `SpreadsheetUploader._ensure_sheet_has_rows` (lines 1427-1481): read the
sheet's current row count; if it already covers the requirement, return
without any write; otherwise issue exactly one `updateSheetProperties`
request setting `rowCount` to the required value.  The returned option is
the row count carried by that single request, `none` when no request is
issued. -/
def ensure_sheet_has_rows (current_rows required_rows : Nat) : Option Nat :=
  if current_rows ≥ required_rows then none else some required_rows

/-- `SpreadsheetUploader._ensure_sheet_capacity` (lines 715-759): if the
required row count exceeds the current one, issue exactly one
`appendDimension` request adding `required - current` rows; otherwise issue
nothing.  The returned option is the `length` of that request. -/
def ensure_sheet_capacity (current_rows required_rows : Nat) : Option Nat :=
  if required_rows > current_rows then some (required_rows - current_rows) else none

/-- Declared capacity of the sheet after an `updateSheetProperties` request
(absolute row count), as issued by `_ensure_sheet_has_rows`. -/
def capacityAfterSet (current : Nat) : Option Nat → Nat
  | none => current
  | some n => n

/-- Declared capacity of the sheet after an `appendDimension` request
(relative row count), as issued by `_ensure_sheet_capacity`. -/
def capacityAfterAppend (current : Nat) : Option Nat → Nat
  | none => current
  | some len => current + len

end SpreadsheetUploader

namespace OrderExport

/-- `ShopifyOrderExporter.get_date_ranges_chunked` (lines 112-134) in
`all_time` mode, with dates modelled as day numbers: the
`while current_start < end_date` loop computes
`current_end = min(current_start + chunk_months * 30 days, end_date)`,
emits the pair, and restarts from `current_end + 1 day`. -/
def get_date_ranges_chunked (current_start end_date chunk_months : Nat) :
    List (Nat × Nat) :=
  if current_start < end_date then
    (current_start, min (current_start + chunk_months * 30) end_date) ::
      get_date_ranges_chunked (min (current_start + chunk_months * 30) end_date + 1)
        end_date chunk_months
  else []
termination_by end_date - current_start
decreasing_by omega

/-- The shape `get_date_ranges_chunked` actually produces, read off the
loop: each emitted window `(s, e)` starts where the previous one ended plus
one day, satisfies `s ≤ e ≤ end`, spans at most `chunk * 30` days, and the
final window ends exactly at `end`. -/
inductive WindowChain (end_date chunk : Nat) : Nat → List (Nat × Nat) → Prop
  | last (s e : Nat) (hse : s ≤ e) (hlo : end_date ≤ e + 1) (hhi : e ≤ end_date)
      (hspan : e - s ≤ chunk * 30) : WindowChain end_date chunk s [(s, e)]
  | step (s e : Nat) (rest : List (Nat × Nat)) (hse : s ≤ e) (hlt : e + 1 < end_date)
      (hspan : e - s ≤ chunk * 30) (h : WindowChain end_date chunk (e + 1) rest) :
      WindowChain end_date chunk s ((s, e) :: rest)

/-- Lines 418-426: the dynamic batch-size adjustment applied after a page
returning `actual_count` records.  The float test
`actual_count < batch_size * 0.5` is exactly `2 * actual_count < batch_size`
for the integer sizes in play (both sides are exactly representable).
A small page bumps `consecutive_small_batches`; on the third consecutive
small page the size shrinks by 10 but never below 25, and the counter
resets; a non-small page resets the counter. -/
def adjust_batch (batch_size consec actual_count : Nat) : Nat × Nat :=
  if 2 * actual_count < batch_size then
    if consec + 1 ≥ 3 then (max 25 (batch_size - 10), 0)
    else (batch_size, consec + 1)
  else (batch_size, 0)

/-- The batch-size state after a sequence of observed page sizes, folding
`adjust_batch` from an initial state. -/
def fold_adjust : Nat × Nat → List Nat → Nat × Nat
  | st, [] => st
  | (b, c), n :: rest => fold_adjust (adjust_batch b c n) rest

/-- Python `str.isdigit` over the character list of an amount string
(the amounts at issue are ASCII decimal strings): non-empty and every
character a decimal digit. -/
def pyIsDigitList (l : List Char) : Bool :=
  !l.isEmpty && l.all Char.isDigit

/-- Python `s.replace(c, "")` at the character-list level: delete every
occurrence of `c`. -/
def removeCharList (l : List Char) (c : Char) : List Char :=
  l.filter (fun a => a != c)

/-- `str(amount).replace(".", "").replace("-", "")` from the money-field
coercions. -/
def stripDotsDashes (s : String) : List Char :=
  removeCharList (removeCharList s.toList '.') '-'

/-- The money-cell coercion of `convert_to_csv_data` (lines 862-881 for
subtotal/shipping/taxes/total, 1002-1011 for line-item prices): when the
`shopMoney` node is absent the cell keeps its `"0"` default; otherwise
`str(amount) if amount and str(amount).replace(".", "").replace("-", "")
.isdigit() else "0"`. -/
def money_cell (shopMoneyAmount : Option String) : String :=
  match shopMoneyAmount with
  | none => "0"
  | some amount =>
    if !(amount == "") && pyIsDigitList (stripDotsDashes amount) then amount else "0"

/-- The quantity-cell coercion (lines 994-1000):
`qty = int(quantity) if quantity else 0` then
`str(qty) if qty > 0 else "0"`; a missing quantity is falsy. -/
def quantity_cell (quantity : Option Int) : String :=
  let qty : Int := match quantity with
    | some q => if q ≠ 0 then q else 0
    | none => 0
  if 0 < qty then toString qty else "0"

/-- Written from the spec sentence of C3, for comparison with the code:
a string that parses as a valid non-negative decimal number — non-empty,
only digits and at most one decimal point, and at least one digit. -/
def specValidNonNegNumber (s : String) : Bool :=
  !s.toList.isEmpty && s.toList.all (fun c => c.isDigit || c == '.')
    && (s.toList.filter (fun c => c == '.')).length ≤ 1
    && s.toList.any Char.isDigit

/-- A fetched order, reduced to the fields the extraction loop inspects:
its natural key (`name`; the empty string models a falsy/missing name, the
case the loop skips as invalid) and an opaque payload standing for the
remaining attributes. -/
structure Order where
  name : String
  payload : Nat
deriving Repr, DecidableEq

/-- One page of the paginated orders response: the edge list (an edge whose
node is invalid is modelled by an empty-named order), the `hasNextPage`
flag and the `endCursor` (none models a missing/falsy cursor). -/
structure Page where
  edges : List Order
  hasNextPage : Bool
  endCursor : Option String
deriving Repr, DecidableEq

/-- Outcome of one attempt of the page-fetch body of
`fetch_orders_from_store` (lines 369-454): a parsed result with an `orders`
field, a missing/failed result (lines 376-378), an exception whose message
carries `Throttled`/`RATE_LIMIT`, or any other exception. -/
inductive FetchOutcome
  | ok (page : Page)
  | badResult
  | rateLimitExc
  | otherExc
deriving Repr, DecidableEq

/-- The loop state of `fetch_orders_from_store` (lines 353-359):
accumulated orders, the dedup set of seen order names, the pagination
cursor, and the adaptive batch-size state.  The page counter is omitted —
it feeds logging only. -/
structure FetchState where
  store_orders : List Order
  seen_order_names : List String
  cursor : Option String
  batch_size : Nat
  consecutive_small_batches : Nat
deriving Repr, DecidableEq

/-- The edge-processing loop (lines 388-410): walk the page's edges,
skipping invalid orders, counting and silently dropping orders whose name
was already seen, and appending fresh orders while marking their names
seen.  Returns the updated state and the page's duplicate count. -/
def processEdgesAux : FetchState → Nat → List Order → FetchState × Nat
  | st, dups, [] => (st, dups)
  | st, dups, o :: rest =>
    if o.name = "" then processEdgesAux st dups rest
    else if o.name ∈ st.seen_order_names then processEdgesAux st (dups + 1) rest
    else
      processEdgesAux
        { st with
          store_orders := st.store_orders ++ [o],
          seen_order_names := o.name :: st.seen_order_names } dups rest

/-- Why the extraction loop handed control back: every such exit is a
`return store_orders` in the Python function, distinguished here by the
branch that took it. -/
inductive StopReason
  | badResult
  | noEdges
  | lastPage
  | noCursor
  | otherError
  | retryExhausted
  | scriptEnded
deriving Repr, DecidableEq

/-- Result of the inner retry loop for one page: either the outer loop
continues with an updated state (`success = True`), or the function
returns the orders accumulated so far. -/
inductive PageStep
  | cont (st : FetchState)
  | stop (orders : List Order) (reason : StopReason)
deriving Repr, DecidableEq

/-- The inner `while retry_count < max_retries and not success` loop of
`fetch_orders_from_store` (lines 363-458), driven by a script of attempt
outcomes.  Returns the page step, the list of rate-limit waits performed
(`min(20 * retry_count, 120)` after the increment, lines 446-451), and the
cursor used by each attempt (the cursor is read afresh from the unchanged
state on every retry, line 373).  A rate-limit exception increments
`retry_count` and retries; any other exception and every failed-result
branch returns; a success processes the edges, adjusts the batch size and
advances the cursor; exhausting the script is reported as its own reason. -/
def processAttempts (st : FetchState) : Nat → List FetchOutcome → PageStep × List Nat × List (Option String)
  | rc, [] =>
    if 3 ≤ rc then (.stop st.store_orders .retryExhausted, [], [])
    else (.stop st.store_orders .scriptEnded, [], [])
  | rc, a :: rest =>
    if 3 ≤ rc then (.stop st.store_orders .retryExhausted, [], [])
    else
      match a with
      | .badResult => (.stop st.store_orders .badResult, [], [st.cursor])
      | .otherExc => (.stop st.store_orders .otherError, [], [st.cursor])
      | .rateLimitExc =>
        let w := min (20 * (rc + 1)) 120
        let r := processAttempts st (rc + 1) rest
        (r.1, w :: r.2.1, st.cursor :: r.2.2)
      | .ok page =>
        if page.edges.isEmpty then (.stop st.store_orders .noEdges, [], [st.cursor])
        else
          let pr := processEdgesAux st 0 page.edges
          let actual_count := page.edges.length - pr.2
          let bs := adjust_batch pr.1.batch_size pr.1.consecutive_small_batches actual_count
          let st3 := { pr.1 with batch_size := bs.1, consecutive_small_batches := bs.2 }
          if page.hasNextPage then
            match page.endCursor with
            | some c => (.cont { st3 with cursor := some c }, [], [st.cursor])
            | none => (.stop st3.store_orders .noCursor, [], [st.cursor])
          else (.stop st3.store_orders .lastPage, [], [st.cursor])

/-- Aggregate result of one run of `fetch_orders_from_store`: the returned
orders, which exit path produced them, and the rate-limit waits performed
along the way. -/
structure FetchResult where
  orders : List Order
  status : StopReason
  waits : List Nat
deriving Repr, DecidableEq

/-- The outer `while True` page loop of `fetch_orders_from_store`, one
attempt script per outer iteration. -/
def fetchLoop : FetchState → List (List FetchOutcome) → FetchResult
  | st, [] => ⟨st.store_orders, .scriptEnded, []⟩
  | st, attempts :: rest =>
    match processAttempts st 0 attempts with
    | (.stop orders reason, ws, _) => ⟨orders, reason, ws⟩
    | (.cont st2, ws, _) =>
      let r := fetchLoop st2 rest
      ⟨r.orders, r.status, ws ++ r.waits⟩

/-- The initial loop state of `fetch_orders_from_store` (lines 354-359):
no orders, empty dedup set, no cursor, batch size 75, no small batches. -/
def initFetchState : FetchState :=
  ⟨[], [], none, 75, 0⟩

/-- `fetch_orders_from_store` for one store and window, driven by a script
of fetch outcomes. -/
def fetch_orders_from_store (script : List (List FetchOutcome)) : FetchResult :=
  fetchLoop initFetchState script

/-- First-occurrence-wins deduplication against a set of already-seen
names: the pure content of both the per-run dedup of
`fetch_orders_from_store` (lines 394-406) and the cross-window dedup of
`fetch_all_orders_chunked` (lines 663-674).  Returns the kept orders and
the final seen set. -/
def keptNewS : List String → List Order → List Order × List String
  | seen, [] => ([], seen)
  | seen, o :: rest =>
    if o.name = "" then keptNewS seen rest
    else if o.name ∈ seen then keptNewS seen rest
    else (o :: (keptNewS (o.name :: seen) rest).1, (keptNewS (o.name :: seen) rest).2)

/-- The kept-orders component of `keptNewS`. -/
def keptNew (seen : List String) (l : List Order) : List Order :=
  (keptNewS seen l).1

/-- The cross-window global dedup of `fetch_all_orders_chunked`
(lines 648-692): windows are processed in order, each window's arriving
orders are filtered against the global seen set (`order_name and
order_name not in global_seen_order_names`, first occurrence wins), and
the survivors are appended to the run's output. -/
def fetch_all_orders_chunked : List String → List (List Order) → List Order
  | _, [] => []
  | seen, w :: rest =>
    (keptNewS seen w).1 ++ fetch_all_orders_chunked (keptNewS seen w).2 rest

/-- Run-state invariant of the extraction loop: every accumulated order's
name is marked seen, and no two accumulated orders share a name. -/
def InvSt (st : FetchState) : Prop :=
  (∀ o ∈ st.store_orders, o.name ∈ st.seen_order_names)
  ∧ List.Pairwise (fun a b : Order => a.name ≠ b.name) st.store_orders

/-- The invariant transported to whichever side of a `PageStep` holds the
orders. -/
def StepInv : PageStep → Prop
  | .cont st2 => InvSt st2
  | .stop orders _ => List.Pairwise (fun a b : Order => a.name ≠ b.name) orders

/-- A one-order page used for closed witnesses. -/
def examplePage : Page :=
  ⟨[⟨"#1001", 0⟩], false, none⟩

/-- Leap-year test of the proleptic Gregorian calendar used by Python's
`datetime`. -/
def isLeapYear (y : Nat) : Bool :=
  (y % 4 == 0 && y % 100 != 0) || y % 400 == 0

/-- Length of month `m` (1-12) in year `y`. -/
def daysInMonth (y m : Nat) : Nat :=
  if m = 2 then (if isLeapYear y then 29 else 28)
  else if m = 4 ∨ m = 6 ∨ m = 9 ∨ m = 11 then 30
  else 31

/-- Days of year `y` that precede month `m` (1-based). -/
def daysBeforeMonth (y : Nat) : Nat → Nat
  | 0 => 0
  | 1 => 0
  | m + 1 => daysBeforeMonth y m + daysInMonth y m

/-- Day number of the date `y-m-d` counted from 0001-01-01 = day 0
(the proleptic Gregorian ordinal minus one, as in Python's
`date.toordinal`). -/
def daysFromCivil (y m d : Nat) : Nat :=
  365 * (y - 1) + (y - 1) / 4 - (y - 1) / 100 + (y - 1) / 400
    + daysBeforeMonth y m + (d - 1)

/-- Inverse of `daysFromCivil`: the date of day number `n`, by the
standard era-decomposition algorithm for the Gregorian calendar
(shift 306 realigns day 0 from 0001-01-01 to the March-based year). -/
def civilFromDays (n : Nat) : Nat × Nat × Nat :=
  let z := n + 306
  let era := z / 146097
  let doe := z % 146097
  let yoe := (doe - doe / 1460 + doe / 36524 - doe / 146096) / 365
  let y := yoe + era * 400
  let doy := doe - (365 * yoe + yoe / 4 - yoe / 100)
  let mp := (5 * doy + 2) / 153
  let d := doy - (153 * mp + 2) / 5 + 1
  let m := if mp < 10 then mp + 3 else mp - 9
  (if m ≤ 2 then y + 1 else y, m, d)

/-- The field content of a (naive) Python `datetime` value as produced by
`datetime.fromisoformat` on a valid ISO-8601 timestamp string. -/
structure DateTimeFields where
  year : Nat
  month : Nat
  day : Nat
  hour : Nat
  minute : Nat
  second : Nat
deriving Repr, DecidableEq

/-- Seconds from 0001-01-01 00:00:00 to the given (naive) field values. -/
def toSeconds (f : DateTimeFields) : Nat :=
  daysFromCivil f.year f.month f.day * 86400
    + f.hour * 3600 + f.minute * 60 + f.second

/-- Field values of the instant `t` seconds after 0001-01-01 00:00:00. -/
def civilFromSeconds (t : Nat) : DateTimeFields :=
  ⟨(civilFromDays (t / 86400)).1, (civilFromDays (t / 86400)).2.1,
    (civilFromDays (t / 86400)).2.2,
    t % 86400 / 3600, t % 86400 % 3600 / 60, t % 86400 % 60⟩

/-- Zero-padded two-digit decimal, as `strftime` `%m %d %H %M %S`. -/
def pad2 (n : Nat) : String :=
  if n < 10 then "0" ++ toString n else toString n

/-- Zero-padded four-digit decimal, as `strftime` `%Y`. -/
def pad4 (n : Nat) : String :=
  if n < 10 then "000" ++ toString n
  else if n < 100 then "00" ++ toString n
  else if n < 1000 then "0" ++ toString n
  else toString n

/-- `dt.strftime(%Y-%m-%d %H:%M:%S)` (line 791). -/
def strftimeYMDHMS (f : DateTimeFields) : String :=
  pad4 f.year ++ "-" ++ pad2 f.month ++ "-" ++ pad2 f.day ++ " "
    ++ pad2 f.hour ++ ":" ++ pad2 f.minute ++ ":" ++ pad2 f.second

/-- Python `dt.astimezone(timezone(timedelta(hours=9)))` followed by
`replace(tzinfo=None)` (lines 785-788), on an aware datetime whose naive
fields are `f` and whose UTC offset is `off` seconds: subtract the source
offset to reach UTC, add the 9-hour target offset, and re-derive the
calendar fields. -/
def astimezone_jst (f : DateTimeFields) (off : Int) : DateTimeFields :=
  civilFromSeconds (((toSeconds f : Int) - off + 9 * 3600).toNat)

/-- `ShopifyOrderExporter.format_datetime` (lines 769-795) on a
successfully parsed datetime value.  A `Z`-suffixed string parses (after
the `replace('Z', '+00:00')` of line 780) to an aware value with offset 0;
an offset-bearing string to an aware value with its offset; a naive value
(no offset) is formatted without conversion (line 785's guard).  The
empty-string and parse-failure passthrough branches concern invalid
inputs, outside this model. -/
def format_datetime (f : DateTimeFields) (off : Option Int) : String :=
  match off with
  | none => strftimeYMDHMS f
  | some o => strftimeYMDHMS (astimezone_jst f o)

/-- Written from the spec sentence of C8, for comparison with the code:
the instant denoted by the timestamp (its naive fields minus its UTC
offset), converted to the fixed +9:00 offset and formatted as
`YYYY-MM-DD HH:MM:SS`. -/
def spec_jst_normalized (f : DateTimeFields) (off : Int) : String :=
  strftimeYMDHMS (civilFromSeconds ((((toSeconds f : Int) - off) + 9 * 3600).toNat))

end OrderExport

namespace SpreadsheetUploader

theorem dictFind_dictUpsert {α : Type} (m : List (String × α)) (k k2 : String) (v : α) :
    dictFind (dictUpsert m k v) k2 = if k = k2 then some v else dictFind m k2 := by
  induction m with
  | nil => simp [dictUpsert, dictFind]
  | cons hd tl ih =>
    obtain ⟨k0, v0⟩ := hd
    by_cases h0 : k0 = k
    · subst h0
      by_cases h2 : k0 = k2 <;> simp [dictUpsert, dictFind, h2]
    · by_cases h2 : k0 = k2
      · subst h2
        have hne : ¬ k = k0 := fun h => h0 h.symm
        simp [dictUpsert, dictFind, h0, hne]
      · simp [dictUpsert, dictFind, h0, h2, ih]

theorem lastOpt_eq_none_iff {α : Type} (l : List α) : lastOpt l = none ↔ l = [] := by
  induction l with
  | nil => simp [lastOpt]
  | cons a rest ih =>
    cases rest with
    | nil => simp [lastOpt]
    | cons b r2 =>
      simp only [lastOpt]
      rw [ih]
      simp

theorem lastOpt_cons_of_ne {α : Type} (a : α) (l : List α) (h : l ≠ []) :
    lastOpt (a :: l) = lastOpt l := by
  cases l with
  | nil => exact absurd rfl h
  | cons b r2 => rfl

theorem keyRowNumbersFrom_zero (rows : List Row) (idx : Nat) (k : String) :
    keyRowNumbersFrom rows idx k 0 = keyRowNumbers rows idx k := by
  simp [keyRowNumbersFrom, keyRowNumbers, List.enum]

theorem buildExistingIdsAux_find (idx : Nat) (k : String) :
    ∀ (rows : List Row) (i : Nat) (m : List (String × Nat)),
    dictFind (buildExistingIdsAux idx rows i m) k =
      match lastOpt (keyRowNumbersFrom rows idx k i) with
      | some r => some r
      | none => dictFind m k := by
  intro rows
  induction rows with
  | nil =>
    intro i m
    simp [buildExistingIdsAux, keyRowNumbersFrom, List.enumFrom, lastOpt]
  | cons row rest ih =>
    intro i m
    by_cases hm : rowKey row idx = some k
    · have hexp : keyRowNumbersFrom (row :: rest) idx k i =
          (i + 2) :: keyRowNumbersFrom rest idx k (i + 1) := by
        simp [keyRowNumbersFrom, List.enumFrom, hm]
      rw [hexp]
      simp only [buildExistingIdsAux, hm]
      rw [ih]
      cases hL : lastOpt (keyRowNumbersFrom rest idx k (i + 1)) with
      | none =>
        have hnil : keyRowNumbersFrom rest idx k (i + 1) = [] :=
          (lastOpt_eq_none_iff _).mp hL
        rw [hnil]
        simp [lastOpt, dictFind_dictUpsert]
      | some r =>
        have hne : keyRowNumbersFrom rest idx k (i + 1) ≠ [] := by
          intro hnil
          rw [hnil] at hL
          simp [lastOpt] at hL
        rw [lastOpt_cons_of_ne _ _ hne, hL]
    · have hexp : keyRowNumbersFrom (row :: rest) idx k i =
          keyRowNumbersFrom rest idx k (i + 1) := by
        simp [keyRowNumbersFrom, List.enumFrom, hm]
      rw [hexp]
      cases hrow : rowKey row idx with
      | none => simp only [buildExistingIdsAux, hrow]; exact ih (i + 1) m
      | some k0 =>
        have hk0 : ¬ (k0 = k) := by
          intro h
          subst h
          exact hm hrow
        simp only [buildExistingIdsAux, hrow]
        rw [ih]
        rw [dictFind_dictUpsert]
        simp [hk0]

theorem classifyNewRowsAux_find (idx : Nat) (ids : List (String × Nat))
    (k : String) (r : Nat) (hr : dictFind ids k = some r) :
    ∀ (l : List Row) (dups : List (String × DupEntry)) (filtered : List Row),
    dictFind (classifyNewRowsAux idx ids l dups filtered).1 k =
      match lastOpt (l.filter (fun row => rowKey row idx = some k)) with
      | some w => some ⟨r, w⟩
      | none => dictFind dups k := by
  intro l
  induction l with
  | nil => intro dups filtered; simp [classifyNewRowsAux, lastOpt]
  | cons row rest ih =>
    intro dups filtered
    cases hrow : rowKey row idx with
    | none =>
      simp only [classifyNewRowsAux, hrow]
      rw [ih]
      have : List.filter (fun row => decide (rowKey row idx = some k)) (row :: rest) =
          List.filter (fun row => decide (rowKey row idx = some k)) rest := by
        simp [List.filter_cons, hrow]
      rw [this]
    | some k0 =>
      by_cases hk0 : k0 = k
      · subst hk0
        simp only [classifyNewRowsAux, hrow, hr]
        rw [ih]
        have hfc : List.filter (fun row => decide (rowKey row idx = some k0)) (row :: rest) =
            row :: List.filter (fun row => decide (rowKey row idx = some k0)) rest := by
          simp [List.filter_cons, hrow]
        rw [hfc]
        cases hL : lastOpt (List.filter (fun row => decide (rowKey row idx = some k0)) rest) with
        | none =>
          have hnil := (lastOpt_eq_none_iff _).mp hL
          rw [hnil]
          simp [lastOpt, dictFind_dictUpsert]
        | some w =>
          have hne : List.filter (fun row => decide (rowKey row idx = some k0)) rest ≠ [] := by
            intro hnil
            rw [hnil] at hL
            simp [lastOpt] at hL
          rw [lastOpt_cons_of_ne _ _ hne, hL]
      · have hfc : List.filter (fun row => decide (rowKey row idx = some k)) (row :: rest) =
            List.filter (fun row => decide (rowKey row idx = some k)) rest := by
          simp only [List.filter_cons, hrow]
          simp [hk0]
        cases hfind : dictFind ids k0 with
        | some r0 =>
          simp only [classifyNewRowsAux, hrow, hfind]
          rw [ih, hfc]
          rw [dictFind_dictUpsert]
          simp [hk0]
        | none =>
          simp only [classifyNewRowsAux, hrow, hfind]
          rw [ih, hfc]

theorem classifyNewRowsAux_filtered (idx : Nat) (ids : List (String × Nat)) :
    ∀ (l : List Row) (dups : List (String × DupEntry)) (filtered : List Row),
    (classifyNewRowsAux idx ids l dups filtered).2 =
      filtered ++ l.filter (keepForAppend idx ids) := by
  intro l
  induction l with
  | nil => intro dups filtered; simp [classifyNewRowsAux]
  | cons row rest ih =>
    intro dups filtered
    cases hrow : rowKey row idx with
    | none =>
      simp only [classifyNewRowsAux, hrow]
      rw [ih]
      have hk : keepForAppend idx ids row = true := by simp [keepForAppend, hrow]
      simp [List.filter_cons, hk]
    | some k0 =>
      cases hfind : dictFind ids k0 with
      | some r0 =>
        simp only [classifyNewRowsAux, hrow, hfind]
        rw [ih]
        have hk : keepForAppend idx ids row = false := by
          simp [keepForAppend, hrow, hfind]
        simp [List.filter_cons, hk]
      | none =>
        simp only [classifyNewRowsAux, hrow, hfind]
        rw [ih]
        have hk : keepForAppend idx ids row = true := by
          simp [keepForAppend, hrow, hfind]
        simp [List.filter_cons, hk]

theorem classifyNewRowsAux_consistent (idx : Nat) (ids : List (String × Nat)) :
    ∀ (l : List Row) (dups : List (String × DupEntry)) (filtered : List Row),
    DupsConsistent idx ids dups →
    DupsConsistent idx ids (classifyNewRowsAux idx ids l dups filtered).1 := by
  intro l
  induction l with
  | nil => intro dups filtered h; simpa [classifyNewRowsAux] using h
  | cons row rest ih =>
    intro dups filtered h
    cases hrow : rowKey row idx with
    | none => simp only [classifyNewRowsAux, hrow]; exact ih _ _ h
    | some k0 =>
      cases hfind : dictFind ids k0 with
      | some r0 =>
        simp only [classifyNewRowsAux, hrow, hfind]
        refine ih _ _ ?_
        intro k2 e2 hfd
        rw [dictFind_dictUpsert] at hfd
        by_cases hk : k0 = k2
        · subst hk
          simp only [if_pos rfl] at hfd
          injection hfd with he
          subst he
          exact ⟨hrow, hfind⟩
        · rw [if_neg hk] at hfd
          exact h k2 e2 hfd
      | none =>
        simp only [classifyNewRowsAux, hrow, hfind]
        exact ih _ _ h

theorem find_duplicate_rows_expand (headers : List String) (erows : List Row)
    (new_data : List Row) (idx : Nat)
    (hidx : findIdColumn headers = some idx) (hne : erows ≠ []) :
    find_duplicate_rows (headers :: erows) new_data =
      ⟨(classifyNewRowsAux idx (buildExistingIds erows idx) (new_data.drop 1) [] []).1,
        (headers :: erows).length + 1,
        some (classifyNewRowsAux idx (buildExistingIds erows idx) (new_data.drop 1) [] []).2⟩ := by
  have hlen : ¬ ((headers :: erows).length < 2) := by
    cases erows with
    | nil => exact absurd rfl hne
    | cons a b => simp [List.length]
  simp only [find_duplicate_rows, if_neg hlen, List.headI, hidx, List.drop]

example : cleanHeader "  ﻿Name " = "Name" := by decide

example : find_duplicate_rows [["Name"], ["A", "x"], ["A", "y"]] [["Name"], ["A", "z"]] =
    ⟨[("A", ⟨3, ["A", "z"]⟩)], 4, some []⟩ := by decide

/-- C1 counterexample: with existing data rows 2 and 3 both keyed `A`, the
reconciler classifies the matching new row as an update to row 3 — the last
occurrence — whereas the claim demands the first occurrence's row 2. -/
theorem C1_counterexample :
    dictFind (find_duplicate_rows [["Name"], ["A", "x"], ["A", "y"]]
        [["Name"], ["A", "z"]]).duplicates "A" = some ⟨3, ["A", "z"]⟩
    ∧ keyRowNumbers [["A", "x"], ["A", "y"]] 0 "A" = [2, 3]
    ∧ (3 : Nat) ≠ 2 := by decide

/-- C1 (amended): when existing data rows contain duplicate natural-key
values, the key lookup maps the key to the row number of the LAST such
occurrence, so every matching new row is classified as an update to the
last occurrence's row number. -/
theorem C1_amended_last_occurrence_wins
    (headers : List String) (erows : List Row) (new_data : List Row)
    (idx : Nat) (k : String) (e : DupEntry)
    (hidx : findIdColumn headers = some idx)
    (hne : erows ≠ [])
    (hdup : dictFind (find_duplicate_rows (headers :: erows) new_data).duplicates k
      = some e) :
    lastOpt (keyRowNumbers erows idx k) = some e.existing_row := by
  rw [find_duplicate_rows_expand headers erows new_data idx hidx hne] at hdup
  have hcons := classifyNewRowsAux_consistent idx (buildExistingIds erows idx)
    (new_data.drop 1) [] [] (by intro k2 e2 h2; exact absurd h2 (by simp [dictFind]))
  have hid : dictFind (buildExistingIds erows idx) k = some e.existing_row :=
    (hcons k e hdup).2
  rw [buildExistingIds, buildExistingIdsAux_find idx k erows 0 []] at hid
  rw [keyRowNumbersFrom_zero] at hid
  cases hL : lastOpt (keyRowNumbers erows idx k) with
  | none => rw [hL] at hid; exact absurd hid (by simp [dictFind])
  | some r => rw [hL] at hid; simpa using hid

/-- Closed instance of `C1_amended_last_occurrence_wins`: one existing data
row keyed `A` sits at row 2, and the matching new row is routed there. -/
theorem C1_amended_witness :
    lastOpt (keyRowNumbers [["A", "x"]] 0 "A") = some (DupEntry.mk 2 ["A", "z"]).existing_row :=
  C1_amended_last_occurrence_wins ["Name"] [["A", "x"]] [["Name"], ["A", "z"]] 0 "A"
    ⟨2, ["A", "z"]⟩ (by decide) (by decide) (by decide)

/-- C9: reconciliation is deterministic and idempotent — two runs of
`find_duplicate_rows` on the same existing and new rows agree on the
duplicates map (update partition), the filtered append list, and the
next-empty-row number.  The embedded function is pure, exactly like the
Python function, which reads only its two arguments. -/
theorem C9_reconcile_deterministic (existing_data new_data : List Row) :
    (find_duplicate_rows existing_data new_data).duplicates
        = (find_duplicate_rows existing_data new_data).duplicates
    ∧ (find_duplicate_rows existing_data new_data).filtered_new_rows
        = (find_duplicate_rows existing_data new_data).filtered_new_rows
    ∧ (find_duplicate_rows existing_data new_data).next_empty_row
        = (find_duplicate_rows existing_data new_data).next_empty_row :=
  ⟨rfl, rfl, rfl⟩

/-- C10: when several new rows share one non-empty key that is present
among the existing ids, only the LAST such new row is recorded as the
update for that key's row number; the filtered append list contains no row
with that key, and every duplicates entry stores a new row whose key cell
equals the entry's own key (so the earlier new rows appear nowhere). -/
theorem C10_last_new_row_wins
    (headers : List String) (erows : List Row) (new_data : List Row)
    (idx : Nat) (k : String) (r : Nat) (w : Row)
    (hidx : findIdColumn headers = some idx)
    (hne : erows ≠ [])
    (hr : dictFind (buildExistingIds erows idx) k = some r)
    (hlast : lastOpt ((new_data.drop 1).filter (fun row => rowKey row idx = some k))
      = some w) :
    dictFind (find_duplicate_rows (headers :: erows) new_data).duplicates k = some ⟨r, w⟩
    ∧ (∀ f, (find_duplicate_rows (headers :: erows) new_data).filtered_new_rows = some f →
        ∀ row ∈ f, ¬ rowKey row idx = some k)
    ∧ (∀ k2 e2,
        dictFind (find_duplicate_rows (headers :: erows) new_data).duplicates k2 = some e2 →
        rowKey e2.new_data idx = some k2) := by
  rw [find_duplicate_rows_expand headers erows new_data idx hidx hne]
  refine ⟨?_, ?_, ?_⟩
  · rw [classifyNewRowsAux_find idx (buildExistingIds erows idx) k r hr]
    rw [hlast]
  · intro f hf row hrow
    injection hf with hf
    subst hf
    rw [classifyNewRowsAux_filtered] at hrow
    simp only [List.nil_append] at hrow
    have hkeep : keepForAppend idx (buildExistingIds erows idx) row = true :=
      List.of_mem_filter hrow
    intro hkey
    simp [keepForAppend, hkey, hr] at hkeep
  · intro k2 e2 h2
    have hcons := classifyNewRowsAux_consistent idx (buildExistingIds erows idx)
      (new_data.drop 1) [] [] (by intro k3 e3 h3; exact absurd h3 (by simp [dictFind]))
    exact (hcons k2 e2 h2).1

/-- Closed instance of `C10_last_new_row_wins`: two new rows keyed `A`; the
second one (`["A", "2"]`) becomes the recorded update for existing row 2
and nothing keyed `A` is appended. -/
theorem C10_witness :
    dictFind (find_duplicate_rows [["Name"], ["A", "x"]]
        [["Name"], ["A", "1"], ["A", "2"]]).duplicates "A" = some ⟨2, ["A", "2"]⟩
    ∧ (∀ f, (find_duplicate_rows [["Name"], ["A", "x"]]
        [["Name"], ["A", "1"], ["A", "2"]]).filtered_new_rows = some f →
        ∀ row ∈ f, ¬ rowKey row 0 = some "A")
    ∧ (∀ k2 e2, dictFind (find_duplicate_rows [["Name"], ["A", "x"]]
        [["Name"], ["A", "1"], ["A", "2"]]).duplicates k2 = some e2 →
        rowKey e2.new_data 0 = some k2) :=
  C10_last_new_row_wins ["Name"] [["A", "x"]] [["Name"], ["A", "1"], ["A", "2"]]
    0 "A" 2 ["A", "2"] (by decide) (by decide) (by decide) (by decide)

/-- C6: each capacity-ensuring routine issues its single capacity request
iff the required row count exceeds the current declared capacity, the
request grows the sheet to exactly the required count, the capacity never
shrinks, and in the spec's scenario requiring 5000 rows at capacity 4000
issues one grow-to-5000 request while a subsequent requirement of 4500 at
capacity 5000 issues none. -/
theorem C6_ensure_capacity (cur req : Nat) :
    ((ensure_sheet_has_rows cur req).isSome ↔ cur < req)
    ∧ ((ensure_sheet_capacity cur req).isSome ↔ cur < req)
    ∧ (cur < req → capacityAfterSet cur (ensure_sheet_has_rows cur req) = req
        ∧ capacityAfterAppend cur (ensure_sheet_capacity cur req) = req)
    ∧ cur ≤ capacityAfterSet cur (ensure_sheet_has_rows cur req)
    ∧ cur ≤ capacityAfterAppend cur (ensure_sheet_capacity cur req)
    ∧ ensure_sheet_has_rows 4000 5000 = some 5000
    ∧ ensure_sheet_has_rows 5000 4500 = none
    ∧ ensure_sheet_capacity 4000 5000 = some 1000
    ∧ ensure_sheet_capacity 5000 4500 = none := by
  refine ⟨?_, ?_, ?_, ?_, ?_, by decide, by decide, by decide, by decide⟩
  · by_cases h : cur ≥ req
    · simp only [ensure_sheet_has_rows, if_pos h, Option.isSome_none]
      simp
      omega
    · simp only [ensure_sheet_has_rows, if_neg h, Option.isSome_some]
      simp
      omega
  · by_cases h : req > cur
    · simp only [ensure_sheet_capacity, if_pos h, Option.isSome_some]
      simp
      omega
    · simp only [ensure_sheet_capacity, if_neg h, Option.isSome_none]
      simp
      omega
  · intro h
    constructor
    · have hn : ¬ (cur ≥ req) := by omega
      simp [ensure_sheet_has_rows, hn, capacityAfterSet]
    · simp [ensure_sheet_capacity, h, capacityAfterAppend]
      omega
  · by_cases h : cur ≥ req
    · simp [ensure_sheet_has_rows, h, capacityAfterSet]
    · simp only [ensure_sheet_has_rows, if_neg h, capacityAfterSet]
      omega
  · by_cases h : req > cur
    · simp [ensure_sheet_capacity, h, capacityAfterAppend]
    · simp [ensure_sheet_capacity, h, capacityAfterAppend]

/-- Closed instance of `C6_ensure_capacity`: the spec's scenario, grow from
4000 to exactly 5000 under both capacity routines. -/
theorem C6_witness :
    capacityAfterSet 4000 (ensure_sheet_has_rows 4000 5000) = 5000
    ∧ capacityAfterAppend 4000 (ensure_sheet_capacity 4000 5000) = 5000 :=
  (C6_ensure_capacity 4000 5000).2.2.1 (by decide)

end SpreadsheetUploader

namespace OrderExport

theorem adjust_batch_floor (b c n : Nat) (hb : 25 ≤ b) :
    25 ≤ (adjust_batch b c n).1 := by
  unfold adjust_batch
  split_ifs <;> simp <;> omega

theorem fold_adjust_floor (counts : List Nat) :
    ∀ (b c : Nat), 25 ≤ b → 25 ≤ (fold_adjust (b, c) counts).1 := by
  induction counts with
  | nil => intro b c hb; simpa [fold_adjust] using hb
  | cons n rest ih =>
    intro b c hb
    show 25 ≤ (fold_adjust (adjust_batch b c n) rest).1
    have h2 := adjust_batch_floor b c n hb
    exact ih (adjust_batch b c n).1 (adjust_batch b c n).2 h2

/-- C5: the adaptive page size of the extraction loop never drops below the
floor of 25 — from any state at or above the floor, in particular from the
initial size 75 — and a single adjustment step shrinks the size only when
the page just returned was small (fewer than half the requested records)
and two consecutive small pages had already been counted, i.e. only on the
third consecutive small page. -/
theorem C5_page_size_floor (counts : List Nat) (b c n : Nat) (hb : 25 ≤ b) :
    25 ≤ (fold_adjust (b, c) counts).1
    ∧ ((adjust_batch b c n).1 ≠ b → 2 * n < b ∧ 2 ≤ c)
    ∧ 25 ≤ (fold_adjust (75, 0) counts).1 := by
  refine ⟨fold_adjust_floor counts b c hb, ?_, fold_adjust_floor counts 75 0 (by omega)⟩
  unfold adjust_batch
  split_ifs with h1 h2 <;> intro hne
  · exact ⟨h1, by omega⟩
  · exact absurd rfl hne
  · exact absurd rfl hne

/-- Closed instance of `C5_page_size_floor`: three consecutive tiny pages
from the initial state shrink the size only down to 65, far above 25, and
the floor holds. -/
theorem C5_witness : 25 ≤ (fold_adjust (75, 0) [10, 10, 10]).1 :=
  (C5_page_size_floor [10, 10, 10] 75 0 10 (by decide)).1

theorem windowChain_ranges (end_date chunk : Nat) :
    ∀ (fuel start : Nat), end_date - start ≤ fuel → start < end_date →
    WindowChain end_date chunk start (get_date_ranges_chunked start end_date chunk) := by
  intro fuel
  induction fuel with
  | zero => intro start hf h; omega
  | succ m ih =>
    intro start hf h
    rw [get_date_ranges_chunked, if_pos h]
    by_cases hcase : min (start + chunk * 30) end_date + 1 < end_date
    · exact WindowChain.step _ _ _ (by omega) hcase (by omega)
        (ih (min (start + chunk * 30) end_date + 1) (by omega) (by omega))
    · have hstop : ¬ (min (start + chunk * 30) end_date + 1 < end_date) := hcase
      rw [get_date_ranges_chunked, if_neg (by omega)]
      exact WindowChain.last _ _ (by omega) (by omega) (by omega) (by omega)

theorem windowChain_bounds (end_date chunk : Nat) :
    ∀ (s : Nat) (ws : List (Nat × Nat)), WindowChain end_date chunk s ws →
    ∀ w ∈ ws, s ≤ w.1 ∧ w.1 ≤ w.2 ∧ w.2 - w.1 ≤ chunk * 30 ∧ w.2 ≤ end_date := by
  intro s ws hchain
  induction hchain with
  | last s e hse hlo hhi hspan =>
    intro w hw
    rw [List.mem_singleton] at hw
    subst hw
    exact ⟨Nat.le_refl _, hse, hspan, hhi⟩
  | step s e rest hse hlt hspan hrest ih =>
    intro w hw
    rcases List.mem_cons.mp hw with hw | hw
    · subst hw
      exact ⟨Nat.le_refl _, hse, hspan, by omega⟩
    · have := ih w hw
      exact ⟨by omega, this.2.1, this.2.2.1, this.2.2.2⟩

theorem windowChain_pairwise (end_date chunk : Nat) :
    ∀ (s : Nat) (ws : List (Nat × Nat)), WindowChain end_date chunk s ws →
    List.Pairwise (fun a b => a.2 < b.1) ws := by
  intro s ws hchain
  induction hchain with
  | last s e hse hlo hhi hspan => simp
  | step s e rest hse hlt hspan hrest ih =>
    refine List.Pairwise.cons ?_ ih
    intro b hb
    have := windowChain_bounds end_date chunk (e + 1) rest hrest b hb
    omega

theorem windowChain_coverage (end_date chunk : Nat) :
    ∀ (s : Nat) (ws : List (Nat × Nat)), WindowChain end_date chunk s ws →
    ∀ d, s ≤ d → d < end_date → ∃ w ∈ ws, w.1 ≤ d ∧ d ≤ w.2 := by
  intro s ws hchain
  induction hchain with
  | last s e hse hlo hhi hspan =>
    intro d hd hdlt
    exact ⟨(s, e), List.mem_singleton.mpr rfl, hd, by omega⟩
  | step s e rest hse hlt hspan hrest ih =>
    intro d hd hdlt
    by_cases hde : d ≤ e
    · exact ⟨(s, e), List.mem_cons_self _ _, hd, hde⟩
    · obtain ⟨w, hw, h1, h2⟩ := ih d (by omega) hdlt
      exact ⟨w, List.mem_cons_of_mem _ hw, h1, h2⟩

/-- C7 counterexample: with full range `[0, 200)` (days) and 6-month
chunks, the partitioner emits `[(0, 180), (181, 200)]`.  Under the
half-open reading `[s, e)` the two windows are neither contiguous
(181 ≠ 180) nor covering: day 180 lies in the full range but in neither
window. -/
theorem C7_counterexample :
    get_date_ranges_chunked 0 200 6 = [(0, 180), (181, 200)]
    ∧ (181 : Nat) ≠ 180
    ∧ ((0 : Nat) ≤ 180 ∧ (180 : Nat) < 200)
    ∧ ¬ ((0 : Nat) ≤ 180 ∧ (180 : Nat) < 180)
    ∧ ¬ ((181 : Nat) ≤ 180 ∧ (180 : Nat) < 200) := by
  refine ⟨?_, by decide, by decide, by decide, by decide⟩
  rw [get_date_ranges_chunked]
  rw [get_date_ranges_chunked]
  rw [get_date_ranges_chunked]
  norm_num

/-- C7 (amended): for every full range `start < end` the partitioner
returns an ordered sequence of windows forming a chain — each window
`(s, e)` has `s ≤ e`, spans at most `chunk × 30` days, the next window
starts exactly one day after the previous one ends, and the last window
ends at `end` or at `end - 1` — hence the windows are pairwise
non-overlapping, each spans at most `chunk × 30` days, and at day
granularity the closed windows jointly cover every day `d` with
`start ≤ d < end`.  Under the strict half-open reading the one-day step
between windows leaves the previous window's end day uncovered, as the
counterexample shows. -/
theorem C7_amended_window_partition (start end_date chunk : Nat) (h : start < end_date) :
    WindowChain end_date chunk start (get_date_ranges_chunked start end_date chunk)
    ∧ List.Pairwise (fun a b => a.2 < b.1) (get_date_ranges_chunked start end_date chunk)
    ∧ (∀ w ∈ get_date_ranges_chunked start end_date chunk,
        start ≤ w.1 ∧ w.1 ≤ w.2 ∧ w.2 - w.1 ≤ chunk * 30 ∧ w.2 ≤ end_date)
    ∧ (∀ d, start ≤ d → d < end_date →
        ∃ w ∈ get_date_ranges_chunked start end_date chunk, w.1 ≤ d ∧ d ≤ w.2) := by
  have hchain := windowChain_ranges end_date chunk (end_date - start) start (Nat.le_refl _) h
  exact ⟨hchain, windowChain_pairwise end_date chunk start _ hchain,
    windowChain_bounds end_date chunk start _ hchain,
    windowChain_coverage end_date chunk start _ hchain⟩

/-- Closed instance of `C7_amended_window_partition` at the
counterexample's range. -/
theorem C7_amended_witness :
    WindowChain 200 6 0 (get_date_ranges_chunked 0 200 6) :=
  (C7_amended_window_partition 0 200 6 (by decide)).1

theorem valid_nonneg_strips (a : String) (h : specValidNonNegNumber a = true) :
    (!(a == "") && pyIsDigitList (stripDotsDashes a)) = true := by
  rw [specValidNonNegNumber] at h
  simp only [Bool.and_eq_true, List.all_eq_true, List.any_eq_true] at h
  have hne : a.toList ≠ [] := by
    intro hnil
    rw [hnil] at h
    simp [List.isEmpty] at h
  have hall : ∀ c ∈ a.toList, c.isDigit = true ∨ c = '.' := by
    intro c hc
    have hcc := h.1.1.2 c hc
    cases hd : c.isDigit with
    | true => exact Or.inl rfl
    | false =>
      rw [hd] at hcc
      simp at hcc
      exact Or.inr hcc
  obtain ⟨c0, hc0l, hc0d⟩ := h.2
  have hc0dot : c0 ≠ '.' := by
    intro he
    rw [he] at hc0d
    exact absurd hc0d (by decide)
  have hc0dash : c0 ≠ '-' := by
    intro he
    rw [he] at hc0d
    exact absurd hc0d (by decide)
  rw [Bool.and_eq_true]
  constructor
  · have hsne : ¬ (a = "") := by
      intro he
      rw [he] at hne
      exact hne rfl
    simp [hsne]
  · rw [pyIsDigitList, stripDotsDashes, removeCharList, removeCharList, Bool.and_eq_true]
    constructor
    · have hmem : c0 ∈ (a.toList.filter (fun x => x != '.')).filter (fun x => x != '-') := by
        refine List.mem_filter.mpr ⟨List.mem_filter.mpr ⟨hc0l, ?_⟩, ?_⟩
        · simpa using hc0dot
        · simpa using hc0dash
      cases hr : (a.toList.filter (fun x => x != '.')).filter (fun x => x != '-') with
      | nil => rw [hr] at hmem; exact absurd hmem (by simp)
      | cons x xs => rfl
    · rw [List.all_eq_true]
      intro c hc
      obtain ⟨hc2, hq2⟩ := List.mem_filter.mp hc
      obtain ⟨hcl, hq1⟩ := List.mem_filter.mp hc2
      rcases hall c hcl with hd | hdot
      · exact hd
      · rw [hdot] at hq1
        exact absurd hq1 (by decide)

/-- C3 counterexample: the amount string `-5` does not parse as a valid
non-negative number, so under the claim the emitted cell must be `"0"`;
but the code's `replace(".", "").replace("-", "").isdigit()` test strips
the minus sign first and lets the negative amount through verbatim. -/
theorem C3_counterexample :
    specValidNonNegNumber "-5" = false
    ∧ money_cell (some "-5") = "-5"
    ∧ "-5" ≠ "0" := by
  refine ⟨by decide, ?_, by decide⟩
  rfl

/-- C3 (amended): a money cell is emitted verbatim whenever the amount
string is non-empty and deleting every `.` and `-` character leaves a
non-empty all-digit string — which covers every valid non-negative decimal
but also negative or malformed numerics such as `-5` — and is `"0"` in
every other case (including a missing amount); a quantity cell is the
decimal form of the quantity exactly when it is positive and `"0"`
otherwise. -/
theorem C3_amended_money_quantity (a : String) (z : Int) :
    (specValidNonNegNumber a = true → money_cell (some a) = a)
    ∧ (money_cell (some a) = a ∨ money_cell (some a) = "0")
    ∧ money_cell none = "0"
    ∧ (0 < z → quantity_cell (some z) = toString z)
    ∧ (z ≤ 0 → quantity_cell (some z) = "0")
    ∧ quantity_cell none = "0" := by
  refine ⟨?_, ?_, rfl, ?_, ?_, rfl⟩
  · intro h
    rw [money_cell, if_pos (valid_nonneg_strips a h)]
  · rw [money_cell]
    by_cases h : (!(a == "") && pyIsDigitList (stripDotsDashes a)) = true
    · rw [if_pos h]; exact Or.inl rfl
    · rw [if_neg h]; exact Or.inr rfl
  · intro h
    rw [quantity_cell]
    simp only [if_pos (by omega : z ≠ 0)]
    rw [if_pos h]
  · intro h
    rw [quantity_cell]
    by_cases hz : z ≠ 0
    · simp only [if_pos hz]
      rw [if_neg (by omega : ¬ (0 < z))]
    · simp only [if_neg hz]
      rw [if_neg (by omega : ¬ ((0 : Int) < 0))]

/-- Closed instance of `C3_amended_money_quantity`: a valid non-negative
decimal amount is emitted verbatim and a positive quantity as its decimal
form. -/
theorem C3_amended_witness :
    money_cell (some "12.5") = "12.5" ∧ quantity_cell (some 3) = "3" :=
  ⟨(C3_amended_money_quantity "12.5" 3).1 (by decide),
    (C3_amended_money_quantity "12.5" 3).2.2.2.1 (by decide)⟩

theorem processAttempts_rl_rl_ok (st : FetchState) (p : Page) :
    processAttempts st 0 [.rateLimitExc, .rateLimitExc, .ok p] =
      ((processAttempts st 0 [.ok p]).1,
        20 :: 40 :: (processAttempts st 0 [.ok p]).2.1,
        st.cursor :: st.cursor :: (processAttempts st 0 [.ok p]).2.2) := rfl

theorem processAttempts_ok_cursors (st : FetchState) (p : Page) :
    (processAttempts st 0 [.ok p]).2.2 = [st.cursor] := by
  obtain ⟨edges, hnp, ec⟩ := p
  cases edges <;> cases hnp <;> cases ec <;> rfl

/-- C2: a rate-limit signal during one page fetch makes the loop wait
`min(20 × attempt, 120)` seconds and retry the same page with the same
cursor, up to the budget of 3 attempts.  Concretely: (i) a page that is
rate-limited twice and succeeds on the third attempt yields the same
orders and the same exit status as an immediately successful page — the
window is not terminated early — with exactly the extra waits 20 and 40;
(ii) the wait emitted for a rate limit on attempt `rc + 1` is
`min(20 × (rc + 1), 120)`; (iii) three consecutive rate limits exhaust the
budget after waits 20, 40, 60 and return the accumulated orders; (iv) all
three attempts of the retried page query the same unchanged cursor. -/
theorem C2_rate_limit_retry (st : FetchState) (p : Page)
    (rest : List (List FetchOutcome)) (rc : Nat) (a2 : List FetchOutcome)
    (hrc : rc < 3) :
    ((fetchLoop st ([.rateLimitExc, .rateLimitExc, .ok p] :: rest)).orders
        = (fetchLoop st ([.ok p] :: rest)).orders
      ∧ (fetchLoop st ([.rateLimitExc, .rateLimitExc, .ok p] :: rest)).status
        = (fetchLoop st ([.ok p] :: rest)).status
      ∧ (fetchLoop st ([.rateLimitExc, .rateLimitExc, .ok p] :: rest)).waits
        = 20 :: 40 :: (fetchLoop st ([.ok p] :: rest)).waits)
    ∧ (processAttempts st rc (.rateLimitExc :: a2)).2.1
        = min (20 * (rc + 1)) 120 :: (processAttempts st (rc + 1) a2).2.1
    ∧ processAttempts st 0 [.rateLimitExc, .rateLimitExc, .rateLimitExc]
        = (.stop st.store_orders .retryExhausted, [20, 40, 60],
            [st.cursor, st.cursor, st.cursor])
    ∧ (processAttempts st 0 [.rateLimitExc, .rateLimitExc, .ok p]).2.2
        = [st.cursor, st.cursor, st.cursor] := by
  refine ⟨?_, ?_, rfl, ?_⟩
  · have hrw := processAttempts_rl_rl_ok st p
    rcases hX : processAttempts st 0 [.ok p] with ⟨step, ws, cs⟩
    rw [hX] at hrw
    cases step with
    | cont st2 => simp [fetchLoop, hrw, hX]
    | stop orders reason => simp [fetchLoop, hrw, hX]
  · simp only [processAttempts, if_neg (by omega : ¬ 3 ≤ rc)]
  · rw [processAttempts_rl_rl_ok st p, processAttempts_ok_cursors st p]

/-- Closed instance of `C2_rate_limit_retry`: a page rate-limited twice
then fetched successfully produces the same orders as an immediately
successful page. -/
theorem C2_witness :
    (fetchLoop initFetchState
        [[.rateLimitExc, .rateLimitExc, .ok examplePage]]).orders
      = (fetchLoop initFetchState [[.ok examplePage]]).orders :=
  (C2_rate_limit_retry initFetchState examplePage [] 0 [] (by decide)).1.1

theorem keptNewS_seen_mono (l : List Order) :
    ∀ (seen : List String) (k : String), k ∈ seen → k ∈ (keptNewS seen l).2 := by
  induction l with
  | nil => intro seen k hk; simpa [keptNewS] using hk
  | cons o rest ih =>
    intro seen k hk
    by_cases h1 : o.name = ""
    · simp only [keptNewS, if_pos h1]; exact ih seen k hk
    · by_cases h2 : o.name ∈ seen
      · simp only [keptNewS, if_neg h1, if_pos h2]; exact ih seen k hk
      · simp only [keptNewS, if_neg h1, if_neg h2]
        exact ih (o.name :: seen) k (List.mem_cons_of_mem _ hk)

theorem keptNew_mem_seen (l : List Order) :
    ∀ (seen : List String), ∀ o ∈ keptNew seen l, o.name ∈ (keptNewS seen l).2 := by
  induction l with
  | nil => intro seen o ho; simp [keptNew, keptNewS] at ho
  | cons o0 rest ih =>
    intro seen o ho
    by_cases h1 : o0.name = ""
    · simp only [keptNew, keptNewS, if_pos h1] at ho ⊢; exact ih seen o ho
    · by_cases h2 : o0.name ∈ seen
      · simp only [keptNew, keptNewS, if_neg h1, if_pos h2] at ho ⊢; exact ih seen o ho
      · simp only [keptNew, keptNewS, if_neg h1, if_neg h2] at ho ⊢
        rcases List.mem_cons.mp ho with he | ho2
        · subst he
          exact keptNewS_seen_mono rest (o.name :: seen) o.name (List.mem_cons_self _ _)
        · exact ih (o0.name :: seen) o ho2

theorem keptNew_mem (l : List Order) :
    ∀ (seen : List String), ∀ o ∈ keptNew seen l, ¬ o.name ∈ seen ∧ o.name ≠ "" := by
  induction l with
  | nil => intro seen o ho; simp [keptNew, keptNewS] at ho
  | cons o0 rest ih =>
    intro seen o ho
    by_cases h1 : o0.name = ""
    · simp only [keptNew, keptNewS, if_pos h1] at ho; exact ih seen o ho
    · by_cases h2 : o0.name ∈ seen
      · simp only [keptNew, keptNewS, if_neg h1, if_pos h2] at ho; exact ih seen o ho
      · simp only [keptNew, keptNewS, if_neg h1, if_neg h2] at ho
        rcases List.mem_cons.mp ho with he | ho2
        · subst he; exact ⟨h2, h1⟩
        · have hr := ih (o0.name :: seen) o ho2
          exact ⟨fun hkk => hr.1 (List.mem_cons_of_mem _ hkk), hr.2⟩

theorem keptNew_pairwise (l : List Order) :
    ∀ (seen : List String),
    List.Pairwise (fun a b : Order => a.name ≠ b.name) (keptNew seen l) := by
  induction l with
  | nil => intro seen; simp [keptNew, keptNewS]
  | cons o0 rest ih =>
    intro seen
    by_cases h1 : o0.name = ""
    · simp only [keptNew, keptNewS, if_pos h1]; exact ih seen
    · by_cases h2 : o0.name ∈ seen
      · simp only [keptNew, keptNewS, if_neg h1, if_pos h2]; exact ih seen
      · simp only [keptNew, keptNewS, if_neg h1, if_neg h2]
        refine List.Pairwise.cons ?_ (ih (o0.name :: seen))
        intro b hb he
        have hbm := keptNew_mem rest (o0.name :: seen) b hb
        exact hbm.1 (by rw [← he]; exact List.mem_cons_self _ _)

theorem keptNew_countP_seen (l : List Order) :
    ∀ (seen : List String) (k : String), k ∈ seen →
    (keptNew seen l).countP (fun o => o.name == k) = 0 := by
  induction l with
  | nil => intro seen k hk; simp [keptNew, keptNewS]
  | cons o0 rest ih =>
    intro seen k hk
    by_cases h1 : o0.name = ""
    · simp only [keptNew, keptNewS, if_pos h1]; exact ih seen k hk
    · by_cases h2 : o0.name ∈ seen
      · simp only [keptNew, keptNewS, if_neg h1, if_pos h2]; exact ih seen k hk
      · simp only [keptNew, keptNewS, if_neg h1, if_neg h2]
        have hne : (o0.name == k) = false :=
          beq_eq_false_iff_ne.mpr (fun he => h2 (he ▸ hk))
        rw [List.countP_cons]
        have := ih (o0.name :: seen) k (List.mem_cons_of_mem _ hk)
        simp only [keptNew] at this
        simp [this, hne]

theorem keptNew_countP (l : List Order) :
    ∀ (seen : List String) (k : String), ¬ k ∈ seen → k ≠ "" →
    (keptNew seen l).countP (fun o => o.name == k)
      = min 1 (l.countP (fun o => o.name == k)) := by
  induction l with
  | nil => intro seen k hk hke; simp [keptNew, keptNewS]
  | cons o0 rest ih =>
    intro seen k hk hke
    by_cases h1 : o0.name = ""
    · have hne : (o0.name == k) = false :=
        beq_eq_false_iff_ne.mpr (fun he => hke (by rw [← he, h1]))
      simp only [keptNew, keptNewS, if_pos h1]
      rw [List.countP_cons]
      have := ih seen k hk hke
      simp only [keptNew] at this
      simp [this, hne]
    · by_cases h2 : o0.name ∈ seen
      · have hne : (o0.name == k) = false :=
          beq_eq_false_iff_ne.mpr (fun he => hk (he ▸ h2))
        simp only [keptNew, keptNewS, if_neg h1, if_pos h2]
        rw [List.countP_cons]
        have := ih seen k hk hke
        simp only [keptNew] at this
        simp [this, hne]
      · simp only [keptNew, keptNewS, if_neg h1, if_neg h2]
        by_cases h3 : o0.name = k
        · have h0 := keptNew_countP_seen rest (o0.name :: seen) k
            (by rw [h3]; exact List.mem_cons_self _ _)
          simp only [keptNew] at h0
          rw [List.countP_cons, List.countP_cons, h0]
          have hbt : (o0.name == k) = true := beq_iff_eq.mpr h3
          simp [hbt]
        · have hne : (o0.name == k) = false := beq_eq_false_iff_ne.mpr h3
          have hk2 : ¬ k ∈ o0.name :: seen := by
            intro hm
            rcases List.mem_cons.mp hm with he | hm2
            · exact h3 he.symm
            · exact hk hm2
          rw [List.countP_cons, List.countP_cons]
          have := ih (o0.name :: seen) k hk2 hke
          simp only [keptNew] at this
          simp [this, hne]

theorem keptNew_find (l : List Order) :
    ∀ (seen : List String) (k : String), ¬ k ∈ seen → k ≠ "" →
    (keptNew seen l).find? (fun o => o.name == k) = l.find? (fun o => o.name == k) := by
  induction l with
  | nil => intro seen k hk hke; simp [keptNew, keptNewS]
  | cons o0 rest ih =>
    intro seen k hk hke
    by_cases h1 : o0.name = ""
    · have hne : (o0.name == k) = false :=
        beq_eq_false_iff_ne.mpr (fun he => hke (by rw [← he, h1]))
      simp only [keptNew, keptNewS, if_pos h1]
      rw [List.find?_cons_of_neg _ (by simp [hne])]
      exact ih seen k hk hke
    · by_cases h2 : o0.name ∈ seen
      · have hne : (o0.name == k) = false :=
          beq_eq_false_iff_ne.mpr (fun he => hk (he ▸ h2))
        simp only [keptNew, keptNewS, if_neg h1, if_pos h2]
        rw [List.find?_cons_of_neg _ (by simp [hne])]
        exact ih seen k hk hke
      · simp only [keptNew, keptNewS, if_neg h1, if_neg h2]
        by_cases h3 : o0.name = k
        · have hbt : (o0.name == k) = true := beq_iff_eq.mpr h3
          rw [List.find?_cons_of_pos _ (by simp [hbt]),
            List.find?_cons_of_pos _ (by simp [hbt])]
        · have hne : (o0.name == k) = false := beq_eq_false_iff_ne.mpr h3
          have hk2 : ¬ k ∈ o0.name :: seen := by
            intro hm
            rcases List.mem_cons.mp hm with he | hm2
            · exact h3 he.symm
            · exact hk hm2
          rw [List.find?_cons_of_neg _ (by simp [hne]),
            List.find?_cons_of_neg _ (by simp [hne])]
          have := ih (o0.name :: seen) k hk2 hke
          simp only [keptNew] at this
          exact this

theorem find?_append_left {α : Type} (l1 l2 : List α) (p : α → Bool)
    (h : (l1.find? p).isSome) : (l1 ++ l2).find? p = l1.find? p := by
  induction l1 with
  | nil => simp [List.find?] at h
  | cons a rest ih =>
    cases hp : p a with
    | true =>
      rw [List.cons_append, List.find?_cons_of_pos _ hp, List.find?_cons_of_pos _ hp]
    | false =>
      rw [List.find?_cons_of_neg _ (by simp [hp])] at h
      rw [List.cons_append, List.find?_cons_of_neg _ (by simp [hp]),
        List.find?_cons_of_neg _ (by simp [hp])]
      exact ih h

theorem keptNewS_append (l1 : List Order) :
    ∀ (l2 : List Order) (seen : List String),
    keptNewS seen (l1 ++ l2) =
      ((keptNewS seen l1).1 ++ (keptNewS (keptNewS seen l1).2 l2).1,
        (keptNewS (keptNewS seen l1).2 l2).2) := by
  induction l1 with
  | nil => intro l2 seen; simp [keptNewS]
  | cons o rest ih =>
    intro l2 seen
    by_cases h1 : o.name = ""
    · simp only [List.cons_append, keptNewS, if_pos h1]; exact ih l2 seen
    · by_cases h2 : o.name ∈ seen
      · simp only [List.cons_append, keptNewS, if_neg h1, if_pos h2]; exact ih l2 seen
      · simp only [List.cons_append, keptNewS, if_neg h1, if_neg h2]
        have hx : keptNewS (o.name :: seen) (rest.append l2) =
            ((keptNewS (o.name :: seen) rest).1
                ++ (keptNewS (keptNewS (o.name :: seen) rest).2 l2).1,
              (keptNewS (keptNewS (o.name :: seen) rest).2 l2).2) :=
          ih l2 (o.name :: seen)
        rw [hx]

theorem chunked_eq_keptNew (ws : List (List Order)) :
    ∀ (seen : List String),
    fetch_all_orders_chunked seen ws = keptNew seen ws.flatten := by
  induction ws with
  | nil => intro seen; simp [fetch_all_orders_chunked, keptNew, keptNewS]
  | cons w rest ih =>
    intro seen
    simp only [fetch_all_orders_chunked, List.flatten_cons]
    rw [keptNew, keptNewS_append w rest.flatten seen]
    rw [ih (keptNewS seen w).2]
    rfl

theorem processEdgesAux_spec (edges : List Order) :
    ∀ (st : FetchState) (d : Nat),
    (processEdgesAux st d edges).1 =
      { st with
        store_orders := st.store_orders ++ keptNew st.seen_order_names edges,
        seen_order_names := (keptNewS st.seen_order_names edges).2 } := by
  induction edges with
  | nil => intro st d; simp [processEdgesAux, keptNew, keptNewS]
  | cons o rest ih =>
    intro st d
    by_cases h1 : o.name = ""
    · have e1 : keptNew st.seen_order_names (o :: rest)
          = keptNew st.seen_order_names rest := by
        simp [keptNew, keptNewS, h1]
      have e2 : (keptNewS st.seen_order_names (o :: rest)).2
          = (keptNewS st.seen_order_names rest).2 := by
        simp [keptNewS, h1]
      rw [e1, e2]
      simp only [processEdgesAux, if_pos h1]
      exact ih st d
    · by_cases h2 : o.name ∈ st.seen_order_names
      · have e1 : keptNew st.seen_order_names (o :: rest)
            = keptNew st.seen_order_names rest := by
          simp [keptNew, keptNewS, h1, h2]
        have e2 : (keptNewS st.seen_order_names (o :: rest)).2
            = (keptNewS st.seen_order_names rest).2 := by
          simp [keptNewS, h1, h2]
        rw [e1, e2]
        simp only [processEdgesAux, if_neg h1, if_pos h2]
        exact ih st (d + 1)
      · have e1 : keptNew st.seen_order_names (o :: rest)
            = o :: keptNew (o.name :: st.seen_order_names) rest := by
          simp [keptNew, keptNewS, h1, h2]
        have e2 : (keptNewS st.seen_order_names (o :: rest)).2
            = (keptNewS (o.name :: st.seen_order_names) rest).2 := by
          simp [keptNewS, h1, h2]
        rw [e1, e2]
        simp only [processEdgesAux, if_neg h1, if_neg h2]
        rw [ih _ d]
        simp [List.append_assoc]

theorem invSt_processEdges (st : FetchState) (d : Nat) (edges : List Order)
    (h : InvSt st) : InvSt (processEdgesAux st d edges).1 := by
  rw [processEdgesAux_spec edges st d]
  constructor
  · intro o ho
    rcases List.mem_append.mp ho with hm1 | hm2
    · exact keptNewS_seen_mono edges st.seen_order_names o.name (h.1 o hm1)
    · exact keptNew_mem_seen edges st.seen_order_names o hm2
  · show List.Pairwise _ (st.store_orders ++ keptNew st.seen_order_names edges)
    rw [List.pairwise_append]
    refine ⟨h.2, keptNew_pairwise edges st.seen_order_names, ?_⟩
    intro a ha b hb he
    have hbm := keptNew_mem edges st.seen_order_names b hb
    exact hbm.1 (he ▸ h.1 a ha)

theorem stepInv_processAttempts (attempts : List FetchOutcome) :
    ∀ (st : FetchState) (rc : Nat), InvSt st →
    StepInv (processAttempts st rc attempts).1 := by
  induction attempts with
  | nil =>
    intro st rc h
    by_cases hrc : 3 ≤ rc <;> simp only [processAttempts, hrc, if_true, if_false,
      reduceIte] <;> exact h.2
  | cons a rest ih =>
    intro st rc h
    by_cases hrc : 3 ≤ rc
    · simp only [processAttempts, if_pos hrc]; exact h.2
    · cases a with
      | badResult => simp only [processAttempts, if_neg hrc]; exact h.2
      | otherExc => simp only [processAttempts, if_neg hrc]; exact h.2
      | rateLimitExc =>
        simp only [processAttempts, if_neg hrc]
        exact ih st (rc + 1) h
      | ok page =>
        simp only [processAttempts, if_neg hrc]
        by_cases hemp : page.edges.isEmpty
        · simp only [hemp, if_pos trivial, if_true]; exact h.2
        · simp only [hemp, Bool.false_eq_true, if_false]
          have h2 := invSt_processEdges st 0 page.edges h
          cases hnp : page.hasNextPage with
          | true =>
            cases hec : page.endCursor with
            | some c => simp only [hnp, hec, if_true]; exact h2
            | none => simp only [hnp, hec, if_true]; exact h2.2
          | false => simp only [hnp, Bool.false_eq_true, if_false]; exact h2.2

theorem fetchLoop_pairwise (script : List (List FetchOutcome)) :
    ∀ (st : FetchState), InvSt st →
    List.Pairwise (fun a b : Order => a.name ≠ b.name) (fetchLoop st script).orders := by
  induction script with
  | nil => intro st h; exact h.2
  | cons attempts rest ih =>
    intro st h
    have hstep := stepInv_processAttempts attempts st 0 h
    rcases hP : processAttempts st 0 attempts with ⟨step, ws, cs⟩
    rw [hP] at hstep
    cases step with
    | cont st2 =>
      simp only [fetchLoop, hP]
      exact ih st2 hstep
    | stop orders reason =>
      simp only [fetchLoop, hP]
      exact hstep

/-- C4: the dedup tracker keeps exactly the first occurrence of every
natural key.  (i) The orders returned by one run of
`fetch_orders_from_store` contain no two orders with the same name, for
every script of page outcomes; (ii) likewise for the output of the
cross-window dedup of `fetch_all_orders_chunked`; (iii) each page's edge
processing appends exactly the first-occurrence survivors `keptNew` of its
edges against the run's seen set, silently and without error; (iv) the
two-window backfill output is `keptNew` of the two windows' concatenation;
(v) and (vi): a key observed in window 1 and again later (e.g. in the
adjacent window 2) is kept exactly once, namely its first occurrence in
window order. -/
theorem C4_dedup_exactly_once
    (script : List (List FetchOutcome)) (windows : List (List Order))
    (w1 w2 : List Order) (k : String) (st : FetchState) (d : Nat)
    (edges : List Order)
    (hk : k ≠ "") (hocc : ∃ o ∈ w1, o.name = k) :
    List.Pairwise (fun a b : Order => a.name ≠ b.name)
      (fetch_orders_from_store script).orders
    ∧ List.Pairwise (fun a b : Order => a.name ≠ b.name)
      (fetch_all_orders_chunked [] windows)
    ∧ (processEdgesAux st d edges).1.store_orders
        = st.store_orders ++ keptNew st.seen_order_names edges
    ∧ fetch_all_orders_chunked [] [w1, w2] = keptNew [] (w1 ++ w2)
    ∧ (keptNew [] (w1 ++ w2)).countP (fun o => o.name == k) = 1
    ∧ (keptNew [] (w1 ++ w2)).find? (fun o => o.name == k)
        = w1.find? (fun o => o.name == k) := by
  refine ⟨?_, ?_, ?_, ?_, ?_, ?_⟩
  · exact fetchLoop_pairwise script initFetchState ⟨by simp [initFetchState], by simp [initFetchState]⟩
  · rw [chunked_eq_keptNew]; exact keptNew_pairwise _ []
  · rw [processEdgesAux_spec]
  · rw [chunked_eq_keptNew]
    simp
  · rw [keptNew_countP (w1 ++ w2) [] k (by simp) hk]
    have hpos : 0 < (w1 ++ w2).countP (fun o => o.name == k) := by
      rw [List.countP_pos_iff]
      obtain ⟨o, ho, hname⟩ := hocc
      exact ⟨o, List.mem_append_left _ ho, by simp [hname]⟩
    omega
  · rw [keptNew_find (w1 ++ w2) [] k (by simp) hk]
    apply find?_append_left
    rw [List.find?_isSome]
    obtain ⟨o, ho, hname⟩ := hocc
    exact ⟨o, ho, by simp [hname]⟩

/-- Closed instance of `C4_dedup_exactly_once`: the key `#1001` appears in
two adjacent windows; exactly one order is kept and it is the first
window's occurrence. -/
theorem C4_witness :
    (keptNew [] ([⟨"#1001", 0⟩] ++ [⟨"#1001", 1⟩])).countP
        (fun o => o.name == "#1001") = 1
    ∧ (keptNew [] ([⟨"#1001", 0⟩] ++ [⟨"#1001", 1⟩])).find?
        (fun o => o.name == "#1001")
      = [Order.mk "#1001" 0].find? (fun o => o.name == "#1001") :=
  ⟨(C4_dedup_exactly_once [] [] [⟨"#1001", 0⟩] [⟨"#1001", 1⟩] "#1001"
      initFetchState 0 [] (by decide) (by decide)).2.2.2.2.1,
    (C4_dedup_exactly_once [] [] [⟨"#1001", 0⟩] [⟨"#1001", 1⟩] "#1001"
      initFetchState 0 [] (by decide) (by decide)).2.2.2.2.2⟩

example : daysFromCivil 1 1 1 = 0 ∧ civilFromDays 0 = (1, 1, 1) := by decide

example : daysFromCivil 2019 1 1 = 737059 ∧ civilFromDays 737059 = (2019, 1, 1) := by decide

example : daysFromCivil 2024 2 29 = 738944 ∧ civilFromDays 738944 = (2024, 2, 29) := by decide

example : daysFromCivil 2024 12 31 = 739250 ∧ civilFromDays 739251 = (2025, 1, 1) := by decide

/-- C8: on every successfully parsed timezone-aware timestamp — a
`Z`-suffixed string parses to offset 0, an offset-bearing string to its
offset — `format_datetime` returns exactly the denoted instant converted
to the fixed +9:00 offset and formatted `YYYY-MM-DD HH:MM:SS`; the result
depends only on the instant (two aware representations of the same instant
format identically), and the embedded function takes no clock input, so
the conversion cannot depend on the time of transformation.  Two concrete
conversions check the calendar arithmetic, one crossing a date and year
boundary. -/
theorem C8_datetime_jst (f g : DateTimeFields) (o p : Int)
    (hsame : (toSeconds f : Int) - o = (toSeconds g : Int) - p) :
    format_datetime f (some o) = spec_jst_normalized f o
    ∧ format_datetime f (some o) = format_datetime g (some p)
    ∧ format_datetime ⟨2024, 8, 6, 13, 8, 54⟩ (some 0) = "2024-08-06 22:08:54"
    ∧ format_datetime ⟨2024, 12, 31, 23, 30, 0⟩ (some (-(5 * 3600)))
        = "2025-01-01 13:30:00" := by
  refine ⟨rfl, ?_, by decide, by decide⟩
  simp only [format_datetime, astimezone_jst]
  rw [show (toSeconds f : Int) - o + 9 * 3600 = (toSeconds g : Int) - p + 9 * 3600 by omega]

/-- Closed instance of `C8_datetime_jst`: the UTC representation and the
+9:00 representation of one instant format to the same string. -/
theorem C8_witness :
    format_datetime ⟨2024, 8, 6, 13, 8, 54⟩ (some 0)
      = format_datetime ⟨2024, 8, 6, 22, 8, 54⟩ (some (9 * 3600)) :=
  (C8_datetime_jst ⟨2024, 8, 6, 13, 8, 54⟩ ⟨2024, 8, 6, 22, 8, 54⟩ 0 (9 * 3600)
    (by decide)).2.1

end OrderExport
